import Mathlib

/-!
Shallow embedding of the llama-runner core (worker command assembly, startup
detection, output ring, request routing, protocol bridge, log parser) together
with theorems settling the specification claims.

Python floats are modelled as rationals, machine integers as Nat, ordered
Python dicts as association lists, and asyncio futures as explicit values
tagged with an allocation id.
-/

namespace LlamaRunner

/-! ## Section 1: worker command assembly (llama_cpp_runner.LlamaCppRunner.start) -/

/-- A scalar value of a `parameters` entry in the model config
(Python: bool, str or int; `str()` is applied to non-bool values). -/
inductive PValue where
  | pbool (b : Bool)
  | pstr (s : String)
  | pint (n : Int)
deriving DecidableEq, Repr

/-- Python `str()` on a parameter value. -/
def PValue.pyStr : PValue → String
  | .pbool true => "True"
  | .pbool false => "False"
  | .pstr s => s
  | .pint n => toString n

/-- Inputs of `LlamaCppRunner.start`: runtime command, model path, model name
and the ordered `parameters` mapping (`kwargs`). -/
structure RunnerArgs where
  llama_cpp_runtime : String
  model_path : String
  model_name : String
  kwargs : List (String × PValue)
deriving DecidableEq, Repr

/-- `key.replace("_", "-")` -/
def kebab (k : String) : String :=
  String.map (fun c => if c = '_' then '-' else c) k

/-- The loop of `LlamaCppRunner.start` that appends the additional arguments
from `kwargs`, skipping `port` (already handled) and false booleans. -/
def argsFromKwargs : List (String × PValue) → List String
  | [] => []
  | (k, v) :: rest =>
    if k = "port" then argsFromKwargs rest
    else
      match v with
      | .pbool true => ("--" ++ kebab k) :: argsFromKwargs rest
      | .pbool false => argsFromKwargs rest
      | .pstr s => ("--" ++ kebab k) :: (PValue.pstr s).pyStr :: argsFromKwargs rest
      | .pint n => ("--" ++ kebab k) :: (PValue.pint n).pyStr :: argsFromKwargs rest

/-- The argv assembled by `LlamaCppRunner.start` (src/llama_runner/llama_cpp_runner.py,
lines 59-86). -/
def startCommand (a : RunnerArgs) : List String :=
  [a.llama_cpp_runtime,
   "--model", a.model_path,
   "--alias", a.model_name,
   "--host", "127.0.0.1",
   "--port",
   (match a.kwargs.lookup "port" with
    | none => "0"
    | some v => v.pyStr)]
  ++ argsFromKwargs a.kwargs

/-- The argv as described by the specification, §4.1 "Command assembly":
base `<command> --model <model_path> --alias <model_name> --host 127.0.0.1
--port <p>` with `p = 0` unless `parameters.port` is set, then for every other
entry the kebab-cased `--` flag: flag alone for boolean true, omitted for
boolean false, flag followed by the stringified value otherwise. -/
def specArgv (a : RunnerArgs) : List String :=
  [a.llama_cpp_runtime,
   "--model", a.model_path,
   "--alias", a.model_name,
   "--host", "127.0.0.1",
   "--port",
   (match a.kwargs.lookup "port" with
    | none => "0"
    | some v => v.pyStr)]
  ++ (a.kwargs.filter (fun kv => kv.1 ≠ "port")).flatMap (fun kv =>
       match kv.2 with
       | .pbool true => ["--" ++ kebab kv.1]
       | .pbool false => []
       | v => ["--" ++ kebab kv.1, v.pyStr])

theorem argsFromKwargs_eq_spec (l : List (String × PValue)) :
    argsFromKwargs l =
      (l.filter (fun kv => kv.1 ≠ "port")).flatMap (fun kv =>
        match kv.2 with
        | .pbool true => ["--" ++ kebab kv.1]
        | .pbool false => []
        | v => ["--" ++ kebab kv.1, v.pyStr]) := by
  induction l with
  | nil => rfl
  | cons kv rest ih =>
    obtain ⟨k, v⟩ := kv
    by_cases hk : k = "port"
    · simp [argsFromKwargs, hk, List.filter_cons, ih]
    · cases v with
      | pbool b =>
        cases b <;>
          simp [argsFromKwargs, hk, List.filter_cons, ih, List.flatMap]
      | pstr s => simp [argsFromKwargs, hk, List.filter_cons, ih, List.flatMap]
      | pint n => simp [argsFromKwargs, hk, List.filter_cons, ih, List.flatMap]

/-! ## Section 2: startup detection and the output ring
(llama_cpp_runner.LlamaCppRunner.wait_for_server_startup / get_output_buffer) -/

/-- Substring containment on character lists (Python `re.search` with a literal
pattern, or the `in` operator). -/
def listContains (pat : List Char) : List Char → Bool
  | [] => decide (pat = [])
  | c :: rest => pat.isPrefixOf (c :: rest) || listContains pat rest

/-- Substring containment of strings. -/
def strContains (pat s : String) : Bool :=
  listContains pat.data s.data

/-- Digits to a natural number (`int()` of a `\d+` capture). -/
def digitsToNat (ds : List Char) : Nat :=
  ds.foldl (fun n c => n * 10 + (c.toNat - 48)) 0

/-- `re.search(r"http://127\.0\.0\.1:(\d+)", line)`: scan for the literal
followed by at least one digit, capture the maximal run of digits. -/
def searchHttpPort : List Char → Option Nat
  | [] => none
  | c :: rest =>
    let s := c :: rest
    if ("http://127.0.0.1:".data).isPrefixOf s then
      let ds := (s.drop "http://127.0.0.1:".data.length).takeWhile Char.isDigit
      if ds.isEmpty then searchHttpPort rest else some (digitsToNat ds)
    else searchHttpPort rest

/-- `re.search(r"port=\x22(\d+)\x22", line)`: the literal, a maximal run of
at least one digit, then a closing double quote. -/
def searchAltPort : List Char → Option Nat
  | [] => none
  | c :: rest =>
    let s := c :: rest
    let pat := ("port=\"").data
    if pat.isPrefixOf s then
      let after := s.drop pat.length
      let ds := after.takeWhile Char.isDigit
      if ds.isEmpty then searchAltPort rest
      else if (after.drop ds.length).head? = some '"' then some (digitsToNat ds)
      else searchAltPort rest
    else searchAltPort rest

/-- Does the line match one of the two startup patterns? -/
def lineMatchesStartup (l : String) : Bool :=
  strContains "main: server is listening on" l || strContains "HTTP server listening" l

/-- The port extracted from a startup line, with the main pattern taking
priority over the alternate one exactly as in the source. -/
def linePort (l : String) : Option Nat :=
  if strContains "main: server is listening on" l then searchHttpPort l.data
  else if strContains "HTTP server listening" l then searchAltPort l.data
  else none

/-- One push into the bounded output ring (`collections.deque(maxlen=10)`). -/
def pushRing (buf : List String) (line : String) : List String :=
  if (buf ++ [line]).length > 10 then
    (buf ++ [line]).drop ((buf ++ [line]).length - 10)
  else buf ++ [line]

/-- Result of the startup wait: the detected port (`none` models a `False`
return, i.e. startup failure) together with the final output ring. -/
structure ScanResult where
  port : Option Nat
  buffer : List String
deriving DecidableEq, Repr

/-- The reading loop of `wait_for_server_startup` over the sequence of stdout
lines: every line is pushed into the ring before the pattern check; the first
line matching a startup pattern decides the outcome (port extracted, or
failure when no port can be extracted from that same line); end of stream is
failure. -/
def scanStartupAux (buf : List String) : List String → ScanResult
  | [] => ⟨none, buf⟩
  | l :: rest =>
    let buf1 := pushRing buf l
    if strContains "main: server is listening on" l then
      ⟨searchHttpPort l.data, buf1⟩
    else if strContains "HTTP server listening" l then
      ⟨searchAltPort l.data, buf1⟩
    else scanStartupAux buf1 rest

/-- `wait_for_server_startup` from an empty ring (the ring is cleared in
`start` before spawning). -/
def scanStartup (lines : List String) : ScanResult :=
  scanStartupAux [] lines

/-- The prefix of stdout lines actually consumed by the startup wait: every
line up to and including the first one matching a startup pattern. -/
def consumedLines : List String → List String
  | [] => []
  | l :: rest => if lineMatchesStartup l then [l] else l :: consumedLines rest

theorem pushRing_eq_rtake (buf : List String) (line : String) :
    pushRing buf line = (buf ++ [line]).rtake 10 := by
  unfold pushRing
  by_cases h : (buf ++ [line]).length > 10
  · rw [if_pos h, List.rtake]
  · rw [if_neg h]
    have h0 : (buf ++ [line]).length - 10 = 0 := by omega
    rw [List.rtake, h0, List.drop_zero]

theorem pushRing_length_le (buf : List String) (line : String)
    (_hb : buf.length ≤ 10) : (pushRing buf line).length ≤ 10 := by
  unfold pushRing
  by_cases h : (buf ++ [line]).length > 10
  · rw [if_pos h]
    simp only [List.length_drop]
    omega
  · rw [if_neg h]
    omega

theorem take_append_take {α : Type} (n : Nat) (as bs : List α) :
    (as ++ bs.take n).take n = (as ++ bs).take n := by
  rw [List.take_append_eq_append_take, List.take_append_eq_append_take,
    List.take_take, Nat.min_eq_left (Nat.sub_le _ _)]

theorem rtake_append_rtake (xs ys : List String) :
    (xs.rtake 10 ++ ys).rtake 10 = (xs ++ ys).rtake 10 := by
  simp only [List.rtake_eq_reverse_take_reverse, List.reverse_append,
    List.reverse_reverse]
  rw [take_append_take]

theorem scanStartupAux_buffer (lines : List String) :
    ∀ buf : List String, buf.length ≤ 10 →
      (scanStartupAux buf lines).buffer = (buf ++ consumedLines lines).rtake 10 := by
  induction lines with
  | nil =>
    intro buf hb
    have h10 : buf.length - 10 = 0 := by omega
    simp [scanStartupAux, consumedLines, List.rtake, h10]
  | cons l rest ih =>
    intro buf hb
    by_cases hm : strContains "main: server is listening on" l
    · have hlm : lineMatchesStartup l = true := by
        simp [lineMatchesStartup, hm]
      simp [scanStartupAux, hm, consumedLines, hlm, pushRing_eq_rtake]
    · by_cases ha : strContains "HTTP server listening" l
      · have hlm : lineMatchesStartup l = true := by
          simp [lineMatchesStartup, ha]
        simp [scanStartupAux, hm, ha, consumedLines, hlm, pushRing_eq_rtake]
      · have hm' : strContains "main: server is listening on" l = false := by
          simpa using hm
        have ha' : strContains "HTTP server listening" l = false := by
          simpa using ha
        have hlm : lineMatchesStartup l = false := by
          simp [lineMatchesStartup, hm', ha']
        simp only [scanStartupAux, hm', ha', Bool.false_eq_true, if_false,
          consumedLines, hlm]
        rw [ih (pushRing buf l) (pushRing_length_le buf l hb), pushRing_eq_rtake,
          rtake_append_rtake]
        simp

theorem scanStartupAux_first_match (l : String) (post : List String)
    (hl : lineMatchesStartup l = true) (buf : List String) :
    (scanStartupAux buf (l :: post)).port = linePort l := by
  by_cases hm : strContains "main: server is listening on" l
  · simp [scanStartupAux, linePort, hm]
  · have hm' : strContains "main: server is listening on" l = false := by
      simpa using hm
    have ha : strContains "HTTP server listening" l = true := by
      simpa [lineMatchesStartup, hm'] using hl
    simp [scanStartupAux, linePort, hm', ha]

/-- C4: worker command assembly is a deterministic pure function of the model
and runtime specification: the argv produced by `LlamaCppRunner.start` is the
base command followed by `--model`, `--alias`, `--host 127.0.0.1` and
`--port` (0 unless `parameters.port` is set), then for every other parameter
the kebab-cased `--` flag — alone for boolean true, omitted for boolean false,
followed by the stringified value otherwise; identical inputs give the
identical argv. -/
theorem claim_C4 (a : RunnerArgs) : startCommand a = specArgv a := by
  unfold startCommand specArgv
  rw [argsFromKwargs_eq_spec]

/-- C10: during startup detection, if the first stdout line that matches a
startup pattern yields no extractable port, `wait_for_server_startup` fails
(returns no port), even when a later line carries a valid port. -/
theorem claim_C10 (pre : List String) (l : String) (post : List String)
    (hpre : ∀ x ∈ pre, lineMatchesStartup x = false)
    (hl : lineMatchesStartup l = true)
    (hport : linePort l = none) :
    (scanStartup (pre ++ l :: post)).port = none := by
  unfold scanStartup
  rw [show (none : Option Nat) = linePort l from hport.symm]
  clear hport
  generalize ([] : List String) = buf
  induction pre generalizing buf with
  | nil => exact scanStartupAux_first_match l post hl buf
  | cons x rest ih =>
    have hx : lineMatchesStartup x = false := hpre x (by simp)
    have hm' : strContains "main: server is listening on" x = false := by
      have := hx
      simp only [lineMatchesStartup, Bool.or_eq_false_iff] at this
      exact this.1
    have ha' : strContains "HTTP server listening" x = false := by
      have := hx
      simp only [lineMatchesStartup, Bool.or_eq_false_iff] at this
      exact this.2
    simp only [List.cons_append, scanStartupAux, hm', ha', Bool.false_eq_true,
      if_false]
    exact ih (fun y hy => hpre y (by simp [hy])) (pushRing buf x)

theorem claim_C10_witness :
    (∀ x ∈ ["loading model"], lineMatchesStartup x = false) ∧
    lineMatchesStartup "main: server is listening on, no port printed" = true ∧
    linePort "main: server is listening on, no port printed" = none ∧
    (scanStartup (["loading model"] ++
      "main: server is listening on, no port printed" ::
        ["main: server is listening on http://127.0.0.1:8080 - ready"])).port
      = none :=
  ⟨by decide, by decide, by decide,
   claim_C10 ["loading model"] "main: server is listening on, no port printed"
     ["main: server is listening on http://127.0.0.1:8080 - ready"]
     (by decide) (by decide) (by decide)⟩

/-- Eleven stdout lines, none matching a startup pattern. -/
def elevenLines : List String :=
  ["l01", "l02", "l03", "l04", "l05", "l06", "l07", "l08", "l09", "l10", "l11"]

/-- C7 counterexample: the output ring is bounded at 10 lines, not ≈200 — after
reading 11 lines the ring has dropped the first one, refuting "holding the last
N≈200 stdout lines". -/
theorem claim_C7_counterexample :
    (scanStartup elevenLines).buffer ≠ elevenLines.rtake 200 ∧
    (scanStartup elevenLines).buffer = elevenLines.rtake 10 := by
  constructor
  · decide
  · decide

/-- C7 (amended): throughout the startup wait the output ring holds the last
up-to-10 stdout lines read (the deque is bounded at maxlen=10, not ≈200);
every line read is pushed regardless of whether it matches a startup pattern
(the consumed prefix includes the matching line), and `get_output_buffer`
returns that ordered sequence. -/
theorem claim_C7 (lines : List String) :
    (scanStartup lines).buffer = (consumedLines lines).rtake 10 ∧
    (scanStartup lines).buffer.length ≤ 10 := by
  have h := scanStartupAux_buffer lines [] (by simp)
  refine ⟨by simpa [scanStartup] using h, ?_⟩
  have h2 : (scanStartup lines).buffer = (consumedLines lines).rtake 10 := by
    simpa [scanStartup] using h
  rw [h2, List.rtake]
  simp only [List.length_drop]
  omega

/-! ## Section 3: tool stripping
(ollama_proxy_thread._dynamic_route_runner_request_generator, lines 91-108, and
lmstudio_proxy_thread._fetch_non_streaming_v1_response, lines 194-211).
Request bodies are Python dicts with unique keys, modelled as ordered
association lists; `pop` of a key is modelled as removing every binding of
that key (they coincide on unique keys). -/

/-- Dictionary access `d.get(k)` on an ordered association list. -/
def alookup {α : Type} (k : String) : List (String × α) → Option α
  | [] => none
  | (k', v) :: rest => if k' = k then some v else alookup k rest

/-- Removal of every binding of a key (`d.pop(k)`; dict keys are unique, so
this coincides with removing the single binding). -/
def eraseKey {α : Type} (a : String) : List (String × α) → List (String × α)
  | [] => []
  | (k', v) :: rest =>
    if k' = a then eraseKey a rest else (k', v) :: eraseKey a rest

/-- `request_body.pop("tools")` followed by `request_body.pop("tool_choice")`. -/
def popToolKeys {α : Type} (body : List (String × α)) : List (String × α) :=
  eraseKey "tool_choice" (eraseKey "tools" body)

/-- Ollama gateway: strip `tools`/`tool_choice` exactly when the runtime
configuration has `supports_tools` set to the boolean `False`
(`runtime_details_from_config.get("supports_tools") is False`). -/
def stripToolsOllama {α : Type} (supports_tools : Option Bool)
    (body : List (String × α)) : List (String × α) :=
  if supports_tools = some false then popToolKeys body else body

/-- OpenAI gateway (`_fetch_non_streaming_v1_response` and
`_dynamic_route_v1_request_generator`): same stripping, guarded by
`if body_bytes and body:` (an empty parsed body is forwarded untouched). -/
def stripToolsLMStudio {α : Type} (supports_tools : Option Bool)
    (body : List (String × α)) : List (String × α) :=
  if body.isEmpty then body else stripToolsOllama supports_tools body

theorem alookup_eraseKey_ne {α : Type} (a k : String) (hk : k ≠ a)
    (body : List (String × α)) :
    alookup k (eraseKey a body) = alookup k body := by
  induction body with
  | nil => rfl
  | cons kv rest ih =>
    obtain ⟨k', v⟩ := kv
    by_cases h : k' = a
    · subst h
      have hne : ¬(k' = k) := fun hc => hk hc.symm
      simp [eraseKey, alookup, hne, ih]
    · by_cases h2 : k' = k
      · simp [eraseKey, h, alookup, h2, hk]
      · simp [eraseKey, h, alookup, h2, ih]

theorem alookup_eraseKey_self {α : Type} (a : String)
    (body : List (String × α)) :
    alookup a (eraseKey a body) = none := by
  induction body with
  | nil => rfl
  | cons kv rest ih =>
    obtain ⟨k', v⟩ := kv
    by_cases h : k' = a
    · simp [eraseKey, h, ih]
    · simp [eraseKey, h, alookup, ih]

/-- C5: for every request routed to a model whose runtime configuration has
`supports_tools == false`, the forwarded body contains neither `tools` nor
`tool_choice` while every other key keeps its value; when `supports_tools` is
true or unset the body is forwarded intact — on both the Ollama and the
OpenAI gateway (the latter also when the guard on a non-empty body applies,
since stripping an empty body is the identity). -/
theorem claim_C5 {α : Type} (supports_tools : Option Bool)
    (body : List (String × α)) :
    (supports_tools = some false →
      alookup "tools" (stripToolsOllama supports_tools body) = none ∧
      alookup "tool_choice" (stripToolsOllama supports_tools body) = none ∧
      ∀ k, k ≠ "tools" → k ≠ "tool_choice" →
        alookup k (stripToolsOllama supports_tools body) = alookup k body) ∧
    (supports_tools ≠ some false → stripToolsOllama supports_tools body = body) ∧
    stripToolsLMStudio supports_tools body = stripToolsOllama supports_tools body := by
  refine ⟨fun hst => ?_, fun hst => ?_, ?_⟩
  · subst hst
    have hred : stripToolsOllama (some false) body = popToolKeys body := by
      simp [stripToolsOllama]
    rw [hred]
    unfold popToolKeys
    refine ⟨?_, ?_, fun k hk1 hk2 => ?_⟩
    · rw [alookup_eraseKey_ne "tool_choice" "tools" (by decide)]
      exact alookup_eraseKey_self "tools" body
    · exact alookup_eraseKey_self "tool_choice" _
    · rw [alookup_eraseKey_ne "tool_choice" k hk2, alookup_eraseKey_ne "tools" k hk1]
  · simp [stripToolsOllama, hst]
  · cases body with
    | nil => simp [stripToolsLMStudio, stripToolsOllama, popToolKeys, eraseKey]
    | cons kv rest => simp [stripToolsLMStudio]

/-- An example chat request body (values opaque strings). -/
def exampleChatBody : List (String × String) :=
  [("model", "m1"), ("messages", "[...]"), ("tools", "[...]"),
   ("tool_choice", "auto"), ("stream", "false")]

theorem claim_C5_witness :
    alookup "tools" (stripToolsOllama (some false) exampleChatBody) = none ∧
    alookup "model" (stripToolsOllama (some false) exampleChatBody)
      = alookup "model" exampleChatBody ∧
    stripToolsOllama (some true) exampleChatBody = exampleChatBody ∧
    stripToolsOllama none exampleChatBody = exampleChatBody :=
  ⟨((claim_C5 (some false) exampleChatBody).1 rfl).1,
   ((claim_C5 (some false) exampleChatBody).1 rfl).2.2 "model"
     (by decide) (by decide),
   (claim_C5 (some true) exampleChatBody).2.1 (by decide),
   (claim_C5 none exampleChatBody).2.1 (by decide)⟩

/-! ## Section 4: runner manager
(llama_runner_manager.LlamaRunnerManager.request_runner_start, lines 60-162,
stop_llama_runner, lines 169-202). An asyncio future is modelled as a value
tagged with its allocation id, so "returns the same Future object" is
expressible. `LlamaRunnerThread.stop` only schedules the asynchronous stop of
the child process and returns at once; hence it is modelled as setting a
`stopRequested` flag while the thread stays alive. -/

/-- The state of an asyncio future for a model startup. -/
inductive FutVal where
  | pending
  | resolved (port : Nat)
  | failed (msg : String)
deriving DecidableEq, Repr

/-- A future together with its allocation id (object identity). -/
structure Fut where
  id : Nat
  val : FutVal
deriving DecidableEq, Repr

/-- `Future.done()` -/
def Fut.done (f : Fut) : Bool :=
  match f.val with
  | .pending => false
  | _ => true

/-- Observable state of one `LlamaRunnerThread` and its runner. -/
structure ThreadSt where
  qtRunning : Bool
  runnerRunning : Bool
  runnerPort : Option Nat
  stopRequested : Bool
deriving DecidableEq, Repr

/-- A runtime configuration entry: legacy command string, or dict form with an
optional `runtime` command (`None`/missing modelled as `none`, the empty
string kept as `some ""` since Python treats it as falsy separately). -/
inductive RtCfg where
  | cmd (s : String)
  | obj (runtime : Option String) (supports_tools : Bool)
deriving DecidableEq, Repr

/-- The per-model entries of `self.models` used by `request_runner_start`. -/
structure ModelCfg where
  model_path : Option String
  llama_cpp_runtime : Option String
deriving DecidableEq, Repr

/-- Manager state: thread table, startup futures, an id counter for future
allocation, and the configuration plus the filesystem view
(`os.path.exists`). -/
structure MgrState where
  threads : List (String × ThreadSt)
  futures : List (String × Fut)
  nextId : Nat
  models : List (String × ModelCfg)
  runtimes : List (String × RtCfg)
  defaultRuntime : RtCfg
  existingPaths : List String
  limit : Nat
deriving DecidableEq, Repr

/-- Python dict assignment `d[k] = v`: replace in place or append. -/
def upsert {α : Type} (k : String) (v : α) :
    List (String × α) → List (String × α)
  | [] => [(k, v)]
  | (k', v') :: rest =>
    if k' = k then (k, v) :: rest else (k', v') :: upsert k v rest

/-- `is_llama_runner_running` -/
def isLlamaRunnerRunning (st : MgrState) (m : String) : Bool :=
  match st.threads.lookup m with
  | some t => t.qtRunning && t.runnerRunning
  | none => false

/-- `get_runner_port` -/
def getRunnerPort (st : MgrState) (m : String) : Option Nat :=
  match st.threads.lookup m with
  | some t => if t.qtRunning && t.runnerRunning then t.runnerPort else none
  | none => none

/-- `stop_llama_runner`: when the thread exists and is running, call
`thread.stop()` — which only requests the asynchronous stop; otherwise only UI
notifications happen. -/
def stopLlamaRunner (st : MgrState) (m : String) : MgrState :=
  match st.threads.lookup m with
  | some t =>
    if t.qtRunning then
      { st with threads := upsert m { t with stopRequested := true } st.threads }
    else st
  | none => st

/-- Outcome of `request_runner_start`: the returned future, or an uncaught
`KeyError` (`self.models[model_name]` with an unknown model). -/
inductive StartOutcome where
  | fut (f : Fut)
  | raises
deriving DecidableEq, Repr

/-- Register a fresh future with value `v` for model `m`. -/
def allocFut (st : MgrState) (m : String) (v : FutVal) : MgrState × Fut :=
  let f : Fut := ⟨st.nextId, v⟩
  ({ st with futures := upsert m f st.futures, nextId := st.nextId + 1 }, f)

/-- `threads` entries whose QThread is running (`running_runners`). -/
def runningRunners (st : MgrState) : List (String × ThreadSt) :=
  st.threads.filter (fun kv => kv.2.qtRunning)

/-- The spawn tail of `request_runner_start` (lines 104-162): allocate the
startup future, resolve the runtime configuration, validate paths, then start
a fresh thread; configuration failures set the exception on the already
registered future. -/
def requestRunnerStartSpawn (st : MgrState) (m : String) :
    MgrState × StartOutcome :=
  match st.models.lookup m with
  | none =>
    -- the Future is created and registered before `self.models[model_name]`
    ((allocFut st m .pending).1, .raises)
  | some cfg =>
    let st1f := allocFut st m .pending
    let st1 := st1f.1
    let fid := st1f.2.id
    let rtKey := cfg.llama_cpp_runtime.getD "default"
    let raw := (st.runtimes.lookup rtKey).getD st.defaultRuntime
    let cmdResult : Option String :=
      match raw with
      | .obj r _ => match r with
                    | some c => if c = "" then none else some c
                    | none => none
      | .cmd s => some s
    match cmdResult with
    | none =>
      let f : Fut := ⟨fid, .failed "invalid runtime config"⟩
      ({ st1 with futures := upsert m f st1.futures }, .fut f)
    | some rcmd =>
      match cfg.model_path with
      | none =>
        let f : Fut := ⟨fid, .failed "no model_path"⟩
        ({ st1 with futures := upsert m f st1.futures }, .fut f)
      | some mp =>
        if mp = "" then
          let f : Fut := ⟨fid, .failed "no model_path"⟩
          ({ st1 with futures := upsert m f st1.futures }, .fut f)
        else if mp ∉ st.existingPaths then
          let f : Fut := ⟨fid, .failed "model file not found"⟩
          ({ st1 with futures := upsert m f st1.futures }, .fut f)
        else if rtKey ≠ "default" ∧ rcmd ∉ st.existingPaths then
          let f : Fut := ⟨fid, .failed "runtime not found"⟩
          ({ st1 with futures := upsert m f st1.futures }, .fut f)
        else
          let t : ThreadSt := ⟨true, false, none, false⟩
          ({ st1 with threads := upsert m t st1.threads }, .fut ⟨fid, .pending⟩)

/-- The capacity step of `request_runner_start` (lines 84-102): when the
count of running threads reaches the limit, either stop them all and fall
through to the spawn (limit 1) — without awaiting their exits — or fail with
the concurrency error (limit > 1). -/
def requestRunnerStartCap (st : MgrState) (m : String) :
    MgrState × StartOutcome :=
  let running := runningRunners st
  if running.length ≥ st.limit then
    if st.limit = 1 then
      let st1 := running.foldl (fun acc kv => stopLlamaRunner acc kv.1) st
      requestRunnerStartSpawn st1 m
    else
      let r := allocFut st m (.failed "Concurrent runner limit reached")
      (r.1, .fut r.2)
  else requestRunnerStartSpawn st m

/-- The already-running step of `request_runner_start` (lines 67-82). -/
def requestRunnerStartAfterFut (st : MgrState) (m : String) :
    MgrState × StartOutcome :=
  if isLlamaRunnerRunning st m then
    match getRunnerPort st m with
    | some p =>
      let r := allocFut st m (.resolved p)
      (r.1, .fut r.2)
    | none =>
      let r := allocFut st m (.failed "running but port unavailable")
      (r.1, .fut r.2)
  else requestRunnerStartCap st m

/-- `request_runner_start` (lines 60-162). -/
def requestRunnerStart (st : MgrState) (m : String) :
    MgrState × StartOutcome :=
  match st.futures.lookup m with
  | some f => if f.done = false then (st, .fut f)
              else requestRunnerStartAfterFut st m
  | none => requestRunnerStartAfterFut st m

/-- C3: when a startup future for a model is outstanding and not yet done,
`request_runner_start` returns that very same future and changes nothing: no
second worker is spawned, so concurrent callers share one outcome. -/
theorem claim_C3 (st : MgrState) (m : String) (f : Fut)
    (hf : st.futures.lookup m = some f) (hd : f.done = false) :
    requestRunnerStart st m = (st, .fut f) := by
  unfold requestRunnerStart
  rw [hf]
  simp [hd]

/-- A concrete manager state with an outstanding pending future for `m1`. -/
def pendingM1State : MgrState :=
  { threads := [],
    futures := [("m1", ⟨7, .pending⟩)],
    nextId := 8,
    models := [("m1", ⟨some "/models/m1.gguf", some "default"⟩)],
    runtimes := [],
    defaultRuntime := .cmd "llama-server",
    existingPaths := ["/models/m1.gguf"],
    limit := 1 }

theorem claim_C3_witness :
    pendingM1State.futures.lookup "m1" = some ⟨7, .pending⟩ ∧
    Fut.done ⟨7, .pending⟩ = false ∧
    requestRunnerStart pendingM1State "m1" = (pendingM1State, .fut ⟨7, .pending⟩) :=
  ⟨by decide, by decide,
   claim_C3 pendingM1State "m1" ⟨7, .pending⟩ (by decide) (by decide)⟩

/-- A concrete manager state: one live runner `m1` at concurrency limit 1. -/
def c1State : MgrState :=
  { threads := [("m1", ⟨true, true, some 9001, false⟩)],
    futures := [],
    nextId := 0,
    models := [("m1", ⟨some "/models/m1.gguf", some "default"⟩),
               ("m2", ⟨some "/models/m2.gguf", some "default"⟩)],
    runtimes := [],
    defaultRuntime := .cmd "llama-server",
    existingPaths := ["/models/m1.gguf", "/models/m2.gguf"],
    limit := 1 }

/-- C1 (code-bug evidence): at concurrency limit 1 with `m1` live, a request
to start `m2` initiates `stop` on `m1` but spawns `m2` immediately, without
awaiting the exit: right after the call the manager holds two live threads —
`m1` still running with only its stop requested, plus the fresh `m2`. -/
theorem claim_C1_code_bug :
    (requestRunnerStart c1State "m2").2 = .fut ⟨0, .pending⟩ ∧
    (runningRunners (requestRunnerStart c1State "m2").1).length = 2 ∧
    (requestRunnerStart c1State "m2").1.threads.lookup "m1"
      = some ⟨true, true, some 9001, true⟩ ∧
    (requestRunnerStart c1State "m2").1.threads.lookup "m2"
      = some ⟨true, false, none, false⟩ := by
  refine ⟨?_, ?_, ?_, ?_⟩ <;> decide

/-! ## Section 5: OpenAI gateway bearer-token check (C6) -/

/-- Outcome of the gateway's authorization check. -/
inductive AuthResult where
  | ok
  | unauthorized (code : Nat)
deriving DecidableEq, Repr

/-- Modelled from the spec: the bearer-token gate of the OpenAI-compatible
gateway. The class implementing it (`FastAPIProxyThread`, constructed with the
`api_key` argument by headless_service_manager.py lines 101-116 and
main_window.py) is absent from the source tree; modelled from spec §6
("when non-null, the OpenAI gateway requires `Authorization: Bearer <key>` on
every request or returns 401") and §7 (AuthError: missing or wrong bearer,
401-class; no check when api_key is null). -/
def lmstudioAuthGate (api_key : Option String) (authorization : Option String) :
    AuthResult :=
  match api_key with
  | none => .ok
  | some key =>
    if authorization = some ("Bearer " ++ key) then .ok else .unauthorized 401

/-- C6: with a configured api_key every request without the correct bearer
header is rejected 401 and every request with it passes; with api_key null no
check is performed. -/
theorem claim_C6 (api_key authorization : Option String) :
    (api_key = none → lmstudioAuthGate api_key authorization = .ok) ∧
    (∀ key, api_key = some key →
      (authorization = some ("Bearer " ++ key) →
        lmstudioAuthGate api_key authorization = .ok) ∧
      (authorization ≠ some ("Bearer " ++ key) →
        lmstudioAuthGate api_key authorization = .unauthorized 401)) := by
  refine ⟨fun h => by simp [lmstudioAuthGate, h], fun key hk => ⟨fun ha => ?_, fun ha => ?_⟩⟩
  · simp [lmstudioAuthGate, hk, ha]
  · simp [lmstudioAuthGate, hk, ha]

theorem claim_C6_witness :
    lmstudioAuthGate none none = .ok ∧
    lmstudioAuthGate (some "sk-123") (some "Bearer sk-123") = .ok ∧
    lmstudioAuthGate (some "sk-123") (some "Bearer wrong") = .unauthorized 401 ∧
    lmstudioAuthGate (some "sk-123") none = .unauthorized 401 :=
  ⟨(claim_C6 none none).1 rfl,
   (((claim_C6 (some "sk-123") (some "Bearer sk-123")).2 "sk-123" rfl).1 (by decide)),
   (((claim_C6 (some "sk-123") (some "Bearer wrong")).2 "sk-123" rfl).2 (by decide)),
   (((claim_C6 (some "sk-123") none).2 "sk-123" rfl).2 (by decide))⟩

/-! ## Section 6: system fingerprint and its injection
(config_loader.calculate_system_fingerprint, lines 229-235, and
lmstudio_proxy_thread._dynamic_route_v1_request_generator, lines 540-587 /
_fetch_non_streaming_v1_response, lines 332-344). -/

/-- JSON values (numbers restricted to integers, which covers the
configuration dictionaries hashed by the fingerprint). -/
inductive Json where
  | null
  | bool (b : Bool)
  | num (n : Int)
  | str (s : String)
  | arr (xs : List Json)
  | obj (kvs : List (String × Json))

/-- Lowercase hexadecimal digit (0-9 then a-f). -/
def hexDigitChar (n : Nat) : Char :=
  if n < 10 then Char.ofNat ('0'.toNat + n)
  else if n < 16 then Char.ofNat ('a'.toNat + (n - 10))
  else '0'

/-- Is the character a lowercase hexadecimal digit? -/
def isHexChar (c : Char) : Bool :=
  c.isDigit || ('a' ≤ c && c ≤ 'f')

/-- `\uXXXX` escape (with a surrogate pair above U+FFFF), as produced by
`json.dumps` with its default `ensure_ascii=True`. -/
def uEscape (n : Nat) : List Char :=
  if n ≤ 0xFFFF then
    ['\\', 'u', hexDigitChar (n / 4096 % 16), hexDigitChar (n / 256 % 16),
     hexDigitChar (n / 16 % 16), hexDigitChar (n % 16)]
  else
    let m := n - 0x10000
    uEscape (0xD800 + m / 0x400) ++ uEscape (0xDC00 + m % 0x400)

/-- One character of a JSON string literal under `ensure_ascii=True`. -/
def escChar (c : Char) : List Char :=
  if c = '"' then ['\\', '"']
  else if c = '\\' then ['\\', '\\']
  else if c = '\n' then ['\\', 'n']
  else if c = '\t' then ['\\', 't']
  else if c = '\r' then ['\\', 'r']
  else if c.toNat = 8 then ['\\', 'b']
  else if c.toNat = 12 then ['\\', 'f']
  else if c.toNat < 32 || c.toNat > 126 then uEscape c.toNat
  else [c]

/-- A JSON string literal. -/
def jstr (s : String) : String :=
  String.mk ('"' :: s.data.flatMap escChar ++ ['"'])

/-- Insertion into a key-sorted list of rendered members (Python string
comparison is code-point lexicographic, as is Lean's). -/
def insertByKey (kv : String × String) :
    List (String × String) → List (String × String)
  | [] => [kv]
  | x :: rest =>
    if x.1 < kv.1 then x :: insertByKey kv rest else kv :: x :: rest

/-- Sort rendered members by key (`sort_keys=True`; dict keys are unique). -/
def sortPairs (l : List (String × String)) : List (String × String) :=
  l.foldr insertByKey []

/-- `json.dumps(config, sort_keys=True)` with the default separators
`", "` and `": "`. Members are rendered first and then sorted by key, which
yields the same string because rendering is independent of position. -/
def jdumps : Json → String
  | .null => "null"
  | .bool true => "true"
  | .bool false => "false"
  | .num n => toString n
  | .str s => jstr s
  | .arr xs =>
    "[" ++ String.intercalate ", " (xs.attach.map (fun x => jdumps x.1)) ++ "]"
  | .obj kvs =>
    let rendered := kvs.attach.map (fun kv => (kv.1.1, jdumps kv.1.2))
    "\x7b" ++
      String.intercalate ", "
        ((sortPairs rendered).map (fun p => jstr p.1 ++ ": " ++ p.2)) ++
      "\x7d"
decreasing_by
  · have h := List.sizeOf_lt_of_mem x.2
    simp_wf
    omega
  · have h := List.sizeOf_lt_of_mem kv.2
    have h2 : sizeOf kv.1.2 < sizeOf kv.1 := by
      obtain ⟨⟨a, b⟩, hp⟩ := kv
      simp
    simp_wf
    omega

/-! MD5 (RFC 1321), operating on byte lists with `Nat` words reduced
mod 2^32. -/

/-- Reduce to a 32-bit word. -/
def wordMask (x : Nat) : Nat := x % 4294967296

/-- 32-bit bitwise complement. -/
def not32 (x : Nat) : Nat := Nat.xor (wordMask x) 4294967295

/-- 32-bit left rotation. -/
def rotl32 (x s : Nat) : Nat :=
  wordMask (Nat.lor (wordMask (x <<< s)) (wordMask x >>> (32 - s)))

/-- The 64 MD5 sine-table constants. -/
def md5K : List Nat :=
  [0xd76aa478, 0xe8c7b756, 0x242070db, 0xc1bdceee,
   0xf57c0faf, 0x4787c62a, 0xa8304613, 0xfd469501,
   0x698098d8, 0x8b44f7af, 0xffff5bb1, 0x895cd7be,
   0x6b901122, 0xfd987193, 0xa679438e, 0x49b40821,
   0xf61e2562, 0xc040b340, 0x265e5a51, 0xe9b6c7aa,
   0xd62f105d, 0x02441453, 0xd8a1e681, 0xe7d3fbc8,
   0x21e1cde6, 0xc33707d6, 0xf4d50d87, 0x455a14ed,
   0xa9e3e905, 0xfcefa3f8, 0x676f02d9, 0x8d2a4c8a,
   0xfffa3942, 0x8771f681, 0x6d9d6122, 0xfde5380c,
   0xa4beea44, 0x4bdecfa9, 0xf6bb4b60, 0xbebfbc70,
   0x289b7ec6, 0xeaa127fa, 0xd4ef3085, 0x04881d05,
   0xd9d4d039, 0xe6db99e5, 0x1fa27cf8, 0xc4ac5665,
   0xf4292244, 0x432aff97, 0xab9423a7, 0xfc93a039,
   0x655b59c3, 0x8f0ccc92, 0xffeff47d, 0x85845dd1,
   0x6fa87e4f, 0xfe2ce6e0, 0xa3014314, 0x4e0811a1,
   0xf7537e82, 0xbd3af235, 0x2ad7d2bb, 0xeb86d391]

/-- The 64 MD5 per-step rotation amounts. -/
def md5S : List Nat :=
  [7, 12, 17, 22, 7, 12, 17, 22, 7, 12, 17, 22, 7, 12, 17, 22,
   5, 9, 14, 20, 5, 9, 14, 20, 5, 9, 14, 20, 5, 9, 14, 20,
   4, 11, 16, 23, 4, 11, 16, 23, 4, 11, 16, 23, 4, 11, 16, 23,
   6, 10, 15, 21, 6, 10, 15, 21, 6, 10, 15, 21, 6, 10, 15, 21]

/-- Round function and message index for step `i`. -/
def md5FG (i b c d : Nat) : Nat × Nat :=
  if i < 16 then (Nat.lor (Nat.land b c) (Nat.land (not32 b) d), i)
  else if i < 32 then (Nat.lor (Nat.land d b) (Nat.land (not32 d) c), (5 * i + 1) % 16)
  else if i < 48 then (Nat.xor (Nat.xor b c) d, (3 * i + 5) % 16)
  else (Nat.xor c (Nat.lor b (not32 d)), (7 * i) % 16)

/-- Four bytes, little-endian, to a 32-bit word. -/
def bytesToWordLE (bs : List Nat) : Nat :=
  bs.foldr (fun b acc => b + 256 * acc) 0

/-- `n` little-endian bytes of `x`. -/
def toLEBytes (n x : Nat) : List Nat :=
  (List.range n).map (fun i => x / 256 ^ i % 256)

/-- One MD5 step. -/
def md5Step (M : List Nat) (st : Nat × Nat × Nat × Nat) (i : Nat) :
    Nat × Nat × Nat × Nat :=
  let a := st.1
  let b := st.2.1
  let c := st.2.2.1
  let d := st.2.2.2
  let fg := md5FG i b c d
  let f := wordMask (fg.1 + a + md5K.getD i 0 + M.getD fg.2 0)
  (d, wordMask (b + rotl32 f (md5S.getD i 0)), b, c)

/-- One 64-byte chunk. -/
def md5Chunk (st : Nat × Nat × Nat × Nat) (chunk : List Nat) :
    Nat × Nat × Nat × Nat :=
  let M := (List.range 16).map (fun j => bytesToWordLE ((chunk.drop (4 * j)).take 4))
  let r := (List.range 64).foldl (md5Step M) st
  (wordMask (st.1 + r.1), wordMask (st.2.1 + r.2.1),
   wordMask (st.2.2.1 + r.2.2.1), wordMask (st.2.2.2 + r.2.2.2))

/-- MD5 padding: 0x80, zeros to 56 mod 64, then the bit length as 8
little-endian bytes. -/
def md5Pad (msg : List Nat) : List Nat :=
  let m1 := msg ++ [128]
  let padLen := (120 - m1.length % 64) % 64
  m1 ++ List.replicate padLen 0 ++ toLEBytes 8 (msg.length * 8 % 2 ^ 64)

/-- Split into 64-byte chunks. -/
def chunks64 : List Nat → List (List Nat)
  | [] => []
  | b :: rest => ((b :: rest).take 64) :: chunks64 ((b :: rest).drop 64)
termination_by l => l.length
decreasing_by
  simp [List.length_drop]
  omega

/-- The 16-byte MD5 digest of a byte sequence. -/
def md5Bytes (msg : List Nat) : List Nat :=
  let f := (chunks64 (md5Pad msg)).foldl md5Chunk
    (0x67452301, 0xefcdab89, 0x98badcfe, 0x10325476)
  toLEBytes 4 f.1 ++ toLEBytes 4 f.2.1 ++ toLEBytes 4 f.2.2.1 ++ toLEBytes 4 f.2.2.2

/-- Lowercase hex rendering of a byte sequence (`hexdigest()`). -/
def hexOfBytes (bs : List Nat) : String :=
  String.mk (bs.flatMap (fun b => [hexDigitChar (b / 16), hexDigitChar (b % 16)]))

/-- `hashlib.md5(s.encode()).hexdigest()` -/
def md5HexOfString (s : String) : String :=
  hexOfBytes (md5Bytes (s.toUTF8.toList.map (fun b => b.toNat)))

/-- Python slicing `s[:n]`. -/
def strTake (s : String) (n : Nat) : String :=
  String.mk (s.data.take n)

/-- `calculate_system_fingerprint` (config_loader.py lines 229-235):
`hashlib.md5(json.dumps(config, sort_keys=True).encode()).hexdigest()[:16]`. -/
def calculate_system_fingerprint (config : Json) : String :=
  strTake (md5HexOfString (jdumps config)) 16

/-- `'system_fingerprint' in data_json` -/
def hasKey (k : String) (kvs : List (String × Json)) : Bool :=
  kvs.any (fun kv => kv.1 = k)

/-- `if 'system_fingerprint' not in data_json: data_json['system_fingerprint']
= system_fingerprint` — dict assignment appends the new key at the end. -/
def addFingerprintIfMissing (fp : String) (kvs : List (String × Json)) :
    List (String × Json) :=
  if hasKey "system_fingerprint" kvs then kvs
  else kvs ++ [("system_fingerprint", .str fp)]

/-- An SSE event on the OpenAI gateway's streaming path: the `[DONE]` marker
or a parsed JSON object payload. -/
inductive SseEvent where
  | doneMarker
  | payload (kvs : List (String × Json))

/-- Per-event transformation of `_dynamic_route_v1_request_generator`
(lines 553-570): `[DONE]` passes through unchanged, a payload missing
`system_fingerprint` gets it appended, a payload carrying it is passed
through unchanged (the original chunk is yielded). The non-streaming path
(lines 341-344) applies the same object transformation to the full JSON
response object. -/
def processSseEvent (fp : String) : SseEvent → SseEvent
  | .doneMarker => .doneMarker
  | .payload kvs => .payload (addFingerprintIfMissing fp kvs)

theorem toLEBytes_length (n x : Nat) : (toLEBytes n x).length = n := by
  simp [toLEBytes]

theorem mem_toLEBytes_lt (n x : Nat) : ∀ b ∈ toLEBytes n x, b < 256 := by
  intro b hb
  simp only [toLEBytes, List.mem_map] at hb
  obtain ⟨i, _, rfl⟩ := hb
  exact Nat.mod_lt _ (by norm_num)

theorem md5Bytes_length (m : List Nat) : (md5Bytes m).length = 16 := by
  simp [md5Bytes, toLEBytes_length]

theorem mem_md5Bytes_lt (m : List Nat) : ∀ b ∈ md5Bytes m, b < 256 := by
  intro b hb
  simp only [md5Bytes, List.mem_append] at hb
  rcases hb with ((h | h) | h) | h <;> exact mem_toLEBytes_lt _ _ _ h

theorem hexOfBytes_data_length (bs : List Nat) :
    (hexOfBytes bs).data.length = 2 * bs.length := by
  induction bs with
  | nil => rfl
  | cons b rest ih =>
    simp only [hexOfBytes, List.flatMap_cons] at ih ⊢
    simp at ih ⊢
    omega

theorem hexDigitChar_isHex (n : Nat) (h : n < 16) :
    isHexChar (hexDigitChar n) = true := by
  interval_cases n <;> decide

theorem mem_hexOfBytes_isHex (bs : List Nat) (hb : ∀ b ∈ bs, b < 256) :
    ∀ c ∈ (hexOfBytes bs).data, isHexChar c = true := by
  intro c hc
  simp only [hexOfBytes, List.mem_flatMap] at hc
  obtain ⟨b, hbs, hcb⟩ := hc
  have h256 := hb b hbs
  have h1 : b / 16 < 16 := Nat.div_lt_of_lt_mul (by omega)
  have h2 : b % 16 < 16 := Nat.mod_lt _ (by norm_num)
  simp only [List.mem_cons, List.mem_singleton, List.not_mem_nil, or_false]
    at hcb
  rcases hcb with rfl | rfl
  · exact hexDigitChar_isHex _ h1
  · exact hexDigitChar_isHex _ h2

theorem md5HexOfString_data_length (s : String) :
    (md5HexOfString s).data.length = 32 := by
  rw [md5HexOfString, hexOfBytes_data_length, md5Bytes_length]

/-- C9: the system fingerprint is the first 16 characters of the (lowercase
hexadecimal) MD5 digest of the model configuration serialized as JSON with
sorted keys — in particular it has exactly 16 characters, all hexadecimal —
and on the OpenAI gateway a JSON payload lacking `system_fingerprint` has the
field appended while payloads already carrying it and `[DONE]` markers pass
through unchanged. -/
theorem claim_C9 (cfg : Json) (fp : String) (kvs : List (String × Json)) :
    calculate_system_fingerprint cfg = strTake (md5HexOfString (jdumps cfg)) 16 ∧
    (calculate_system_fingerprint cfg).data.length = 16 ∧
    (∀ c ∈ (calculate_system_fingerprint cfg).data, isHexChar c = true) ∧
    (hasKey "system_fingerprint" kvs = false →
      processSseEvent fp (.payload kvs)
        = .payload (kvs ++ [("system_fingerprint", .str fp)])) ∧
    (hasKey "system_fingerprint" kvs = true →
      processSseEvent fp (.payload kvs) = .payload kvs) ∧
    processSseEvent fp .doneMarker = .doneMarker := by
  refine ⟨rfl, ?_, ?_, fun h => ?_, fun h => ?_, rfl⟩
  · simp only [calculate_system_fingerprint, strTake, List.length_take]
    rw [md5HexOfString_data_length]
    omega
  · intro c hc
    simp only [calculate_system_fingerprint, strTake] at hc
    have hc2 : c ∈ (md5HexOfString (jdumps cfg)).data := List.take_subset _ _ hc
    exact mem_hexOfBytes_isHex _ (mem_md5Bytes_lt _) c hc2
  · simp [processSseEvent, addFingerprintIfMissing, h]
  · simp [processSseEvent, addFingerprintIfMissing, h]

/-- An example SSE delta payload without a fingerprint. -/
def examplePayload : List (String × Json) :=
  [("id", .str "chatcmpl-1"), ("object", .str "chat.completion.chunk"),
   ("choices", .arr [])]

theorem claim_C9_witness :
    hasKey "system_fingerprint" examplePayload = false ∧
    hasKey "system_fingerprint"
      (examplePayload ++ [("system_fingerprint", .str "0123456789abcdef")])
      = true ∧
    processSseEvent "0123456789abcdef" (.payload examplePayload)
      = .payload (examplePayload ++
          [("system_fingerprint", .str "0123456789abcdef")]) ∧
    processSseEvent "0123456789abcdef"
      (.payload (examplePayload ++
        [("system_fingerprint", .str "0123456789abcdef")]))
      = .payload (examplePayload ++
          [("system_fingerprint", .str "0123456789abcdef")]) :=
  ⟨by decide, by decide,
   (claim_C9 Json.null "0123456789abcdef" examplePayload).2.2.2.1 (by decide),
   (claim_C9 Json.null "0123456789abcdef"
     (examplePayload ++ [("system_fingerprint", .str "0123456789abcdef")])).2.2.2.2.1
     (by decide)⟩

/-! ## Section 7: Ollama streaming bridge with deferred done
(ollama_proxy_thread.chat_response_stream, lines 430-543, and
generate_response_stream, lines 271-392). The upstream SSE stream is modelled
as a list of already-parsed blocks, one block per chunk; Python's
`time.perf_counter_ns()` is modelled as a monotone clock indexed by the number
of calls made so far. -/

/-- One parsed OpenAI streaming delta: optional `content` and the
`finish_reason` (top-level or of `choices[0]`). -/
structure OaiDelta where
  content : Option String
  finish : Option String
deriving DecidableEq, Repr

/-- One SSE block: the `[DONE]` marker (skipped) or a delta. -/
inductive OaiBlock where
  | doneMarker
  | delta (d : OaiDelta)
deriving DecidableEq, Repr

/-- A translated Ollama NDJSON chunk. `content` is `message.content` on the
chat path and `response` on the generate path; `none` models the field being
deleted. Fields absent from the emitted object are `none`. -/
structure OChunk where
  content : Option String
  done : Option Bool := none
  done_reason : Option String := none
  total_duration : Option String := none
  load_duration : Option String := none
  prompt_eval_count : Option String := none
  prompt_eval_duration : Option String := none
  eval_count : Option String := none
  eval_duration : Option String := none
deriving DecidableEq, Repr

/-- Modelled from the spec: `chatResponseToOllama` / `generateResponseToOllama`
from ollama_proxy_conversions, a module imported by ollama_proxy_thread.py but
absent from the source tree. Spec §4.3.2: for each OpenAI delta emit one
object in Ollama's dialect whose `message.content` (chat) resp. `response`
(generate) carries the delta's content ("" when the delta has none). -/
def deltaToOllama (d : OaiDelta) : OChunk :=
  { content := some (d.content.getD "") }

/-- Truthiness of the chunk's content (`msg.get("content")` resp.
`resp_to_yield.get("response")`). -/
def countable (c : OChunk) : Bool :=
  match c.content with
  | some s => decide (s ≠ "")
  | none => false

/-- Generator state: the buffered chunk (`prev_ollama_resp`), the stop flag,
the token counter, the clock-call indices of the first and last counted
token, and the number of clock calls made so far. -/
structure BridgeState where
  prev : Option OChunk
  sawStop : Bool
  evalCount : Nat
  firstTokIdx : Option Nat
  lastTokIdx : Option Nat
  k : Nat
deriving DecidableEq, Repr

/-- State at generator entry; `start_time_ns` is clock call 0. -/
def initBridge : BridgeState :=
  ⟨none, false, 0, none, none, 1⟩

/-- Yield the buffered chunk with `done: false` (when one is buffered),
counting it and time-stamping when its content is non-empty. -/
def bridgeYieldPrev (s : BridgeState) : BridgeState × List OChunk :=
  match s.prev with
  | none => (s, [])
  | some p =>
    let p1 := { p with done := some false }
    if countable p1 then
      ({ s with evalCount := s.evalCount + 1,
                firstTokIdx := some (s.firstTokIdx.getD s.k),
                lastTokIdx := some s.k,
                k := s.k + 1 }, [p1])
    else (s, [p1])

/-- The synthesized final fields (`done_reason` through `eval_duration`),
with `end_time_ns` read at clock index `endIdx`. -/
def finalizeFields (clock : Nat → Nat) (s : BridgeState) (c : OChunk)
    (endIdx : Nat) : OChunk :=
  { c with done := some true,
           done_reason := some "stop",
           total_duration := some (toString (clock endIdx - clock 0)),
           load_duration := some "0",
           prompt_eval_count := some "0",
           prompt_eval_duration := some "0",
           eval_count := some (toString s.evalCount),
           eval_duration := some
             (match s.firstTokIdx, s.lastTokIdx with
              | some f, some l => toString (clock l - clock f)
              | _, _ => "0") }

/-- Processing of one delta block: yield the buffered chunk, buffer the new
translation, and on `finish_reason == "stop"` emit it finalized at once. -/
def bridgeStepDelta (clock : Nat → Nat) (s : BridgeState) (d : OaiDelta) :
    BridgeState × List OChunk :=
  let r := bridgeYieldPrev s
  let resp := deltaToOllama d
  let s2 := { r.1 with prev := some resp }
  if d.finish = some "stop" then
    let fin := finalizeFields clock s2 resp s2.k
    ({ s2 with prev := none, sawStop := true, k := s2.k + 1 }, r.2 ++ [fin])
  else (s2, r.2)

/-- The block loop (`[DONE]` markers are skipped). -/
def bridgeRun (clock : Nat → Nat) (s : BridgeState) :
    List OaiBlock → BridgeState × List OChunk
  | [] => (s, [])
  | .doneMarker :: rest => bridgeRun clock s rest
  | .delta d :: rest =>
    let r := bridgeStepDelta clock s d
    let r2 := bridgeRun clock r.1 rest
    (r2.1, r.2 ++ r2.2)

/-- End-of-stream flush of the buffered chunk: on the chat path the
`message` object is never deleted (it always carries `role`); on the generate
path an empty `response` field is removed. -/
def flushChunk (isChat : Bool) (p : OChunk) : OChunk :=
  if isChat then p
  else { p with content := if p.content = some "" then none else p.content }

/-- After the loop: if a chunk is still buffered and no stop was seen, emit
it finalized with `done: true`. -/
def bridgeFinish (isChat : Bool) (clock : Nat → Nat)
    (sr : BridgeState × List OChunk) : List OChunk :=
  match sr.1.prev, sr.1.sawStop with
  | some p, false =>
    sr.2 ++ [finalizeFields clock sr.1 (flushChunk isChat p) sr.1.k]
  | _, _ => sr.2

/-- `chat_response_stream` over a whole upstream stream. -/
def chatStream (clock : Nat → Nat) (blocks : List OaiBlock) : List OChunk :=
  bridgeFinish true clock (bridgeRun clock initBridge blocks)

/-- `generate_response_stream` over a whole upstream stream. -/
def generateStream (clock : Nat → Nat) (blocks : List OaiBlock) : List OChunk :=
  bridgeFinish false clock (bridgeRun clock initBridge blocks)

/-- The done-false chunks produced while deltas keep arriving, starting from a
buffered chunk `p`. -/
def pendingOuts (p : OChunk) : List OaiDelta → List OChunk
  | [] => []
  | d :: rest => { p with done := some false } :: pendingOuts (deltaToOllama d) rest

/-- Number of counted (non-empty content) chunks among those yields. -/
def countPending (p : OChunk) : List OaiDelta → Nat
  | [] => 0
  | d :: rest =>
    (if countable p then 1 else 0) + countPending (deltaToOllama d) rest

/-- Timing bookkeeping invariant: at least the start-time call has happened,
and the recorded token indices (when present) are ordered and in the past. -/
def timingOk (s : BridgeState) : Prop :=
  1 ≤ s.k ∧
  ((s.firstTokIdx = none ∧ s.lastTokIdx = none) ∨
    (∃ f l, s.firstTokIdx = some f ∧ s.lastTokIdx = some l ∧ f ≤ l ∧ l < s.k))

/-- The synthesized final chunk with explicit numeric durations. -/
def finalChunk (c : Option String) (cnt t e : Nat) : OChunk :=
  { content := c, done := some true, done_reason := some "stop",
    total_duration := some (toString t), load_duration := some "0",
    prompt_eval_count := some "0", prompt_eval_duration := some "0",
    eval_count := some (toString cnt), eval_duration := some (toString e) }

/-- Content of the final emitted chunk: the last delta's content, except that
the generate path deletes an empty `response` when flushing at end of
stream. -/
def finalContent (isChat : Bool) (dl : OaiDelta) : Option String :=
  if dl.finish = some "stop" then some (dl.content.getD "")
  else if isChat then some (dl.content.getD "")
  else if dl.content.getD "" = "" then none
  else some (dl.content.getD "")

/-- The tail the finish step appends after the loop's outputs. -/
def finishTail (isChat : Bool) (clock : Nat → Nat) (s : BridgeState) :
    List OChunk :=
  match s.prev, s.sawStop with
  | some p, false => [finalizeFields clock s (flushChunk isChat p) s.k]
  | _, _ => []

theorem bridgeFinish_eq (isChat : Bool) (clock : Nat → Nat) (s : BridgeState)
    (outs : List OChunk) :
    bridgeFinish isChat clock (s, outs) = outs ++ finishTail isChat clock s := by
  unfold bridgeFinish finishTail
  cases hp : s.prev <;> cases hs : s.sawStop <;> simp

theorem bridgeRun_append (clock : Nat → Nat) (xs ys : List OaiBlock) :
    ∀ s : BridgeState,
      bridgeRun clock s (xs ++ ys)
        = ((bridgeRun clock (bridgeRun clock s xs).1 ys).1,
           (bridgeRun clock s xs).2
             ++ (bridgeRun clock (bridgeRun clock s xs).1 ys).2) := by
  induction xs with
  | nil => intro s; simp [bridgeRun]
  | cons b rest ih =>
    intro s
    cases b with
    | doneMarker => simp [bridgeRun, ih]
    | delta d => simp [bridgeRun, ih]

theorem countable_setDoneFalse (p : OChunk) :
    countable { p with done := some false } = countable p := rfl

/-- The state after a counted (non-empty) deferred yield followed by
buffering the translation of `d`. -/
def advCounted (s : BridgeState) (d : OaiDelta) : BridgeState :=
  { s with evalCount := s.evalCount + 1,
           firstTokIdx := some (s.firstTokIdx.getD s.k),
           lastTokIdx := some s.k,
           k := s.k + 1,
           prev := some (deltaToOllama d) }

/-- The state after an uncounted deferred yield followed by buffering the
translation of `d`. -/
def advPlain (s : BridgeState) (d : OaiDelta) : BridgeState :=
  { s with prev := some (deltaToOllama d) }

theorem timingOk_advCounted (s : BridgeState) (d : OaiDelta)
    (hts : timingOk s) : timingOk (advCounted s d) := by
  obtain ⟨hk, hrec⟩ := hts
  unfold timingOk advCounted
  dsimp only
  refine ⟨by omega, Or.inr ?_⟩
  rcases hrec with ⟨hf, _hl⟩ | ⟨f, l, hf, _hl, hfl, hlk⟩
  · exact ⟨s.k, s.k, by simp [hf], rfl, le_refl _, by omega⟩
  · exact ⟨f, s.k, by simp [hf], rfl, by omega, by omega⟩

theorem timingOk_advPlain (s : BridgeState) (d : OaiDelta)
    (hts : timingOk s) : timingOk (advPlain s d) := by
  obtain ⟨hk, hrec⟩ := hts
  exact ⟨hk, by simpa [advPlain] using hrec⟩

/-- Running a sequence of non-stop deltas from a state with a buffered chunk
yields exactly the deferred chunks with `done: false` and keeps the last
translation buffered. -/
theorem bridgeRun_pending (clock : Nat → Nat) (ds : List OaiDelta)
    (hmid : ∀ d ∈ ds, d.finish = none) :
    ∀ (s : BridgeState) (p : OChunk), s.prev = some p → s.sawStop = false →
      timingOk s →
      ∃ s2 : BridgeState,
        bridgeRun clock s (ds.map .delta) = (s2, pendingOuts p ds) ∧
        s2.prev = some (ds.foldl (fun _ d => deltaToOllama d) p) ∧
        s2.sawStop = false ∧
        s2.evalCount = s.evalCount + countPending p ds ∧
        timingOk s2 := by
  induction ds with
  | nil =>
    intro s p hp hss hts
    refine ⟨s, by simp [bridgeRun, pendingOuts], by simp [hp], hss,
      by simp [countPending], hts⟩
  | cons d rest ih =>
    intro s p hp hss hts
    have hd : d.finish = none := hmid d (by simp)
    have hrest : ∀ x ∈ rest, x.finish = none := fun x hx => hmid x (by simp [hx])
    by_cases hc : countable p
    · have hstep : bridgeStepDelta clock s d =
          (advCounted s d, [{ p with done := some false }]) := by
        simp [bridgeStepDelta, bridgeYieldPrev, hp, countable_setDoneFalse, hc,
          hd, advCounted]
      obtain ⟨s2, hrun, hprev, hss2, hev, hts2⟩ :=
        ih hrest (advCounted s d) (deltaToOllama d) rfl hss
          (timingOk_advCounted s d hts)
      refine ⟨s2, ?_, ?_, hss2, ?_, hts2⟩
      · simp only [List.map_cons, bridgeRun, hstep, hrun, pendingOuts,
          List.singleton_append]
      · simpa [List.foldl_cons] using hprev
      · have hcp : countPending p (d :: rest)
            = 1 + countPending (deltaToOllama d) rest := by
          simp [countPending, hc]
        have hce : (advCounted s d).evalCount = s.evalCount + 1 := rfl
        omega
    · have hstep : bridgeStepDelta clock s d =
          (advPlain s d, [{ p with done := some false }]) := by
        simp [bridgeStepDelta, bridgeYieldPrev, hp, countable_setDoneFalse, hc,
          hd, advPlain]
      obtain ⟨s2, hrun, hprev, hss2, hev, hts2⟩ :=
        ih hrest (advPlain s d) (deltaToOllama d) rfl hss
          (timingOk_advPlain s d hts)
      refine ⟨s2, ?_, ?_, hss2, ?_, hts2⟩
      · simp only [List.map_cons, bridgeRun, hstep, hrun, pendingOuts,
          List.singleton_append]
      · simpa [List.foldl_cons] using hprev
      · have hcp : countPending p (d :: rest)
            = countPending (deltaToOllama d) rest := by
          simp [countPending, hc]
        have hce : (advPlain s d).evalCount = s.evalCount := rfl
        omega

/-- The last delta of `d0 :: ds`. -/
def lastD (d0 : OaiDelta) (ds : List OaiDelta) : OaiDelta :=
  ds.foldl (fun _ d => d) d0

/-- Number of deltas with non-empty content. -/
def countDeltas (l : List OaiDelta) : Nat :=
  (l.filter (fun d => d.content.getD "" ≠ "")).length

/-- The numeric `eval_duration` recorded in a state. -/
def eFrom (clock : Nat → Nat) (s : BridgeState) : Nat :=
  match s.firstTokIdx, s.lastTokIdx with
  | some f, some l => clock l - clock f
  | _, _ => 0

theorem foldl_deltaToOllama (rest : List OaiDelta) :
    ∀ d0 : OaiDelta,
      rest.foldl (fun _ d => deltaToOllama d) (deltaToOllama d0)
        = deltaToOllama (lastD d0 rest) := by
  induction rest with
  | nil => intro d0; rfl
  | cons d1 rest' ih => intro d0; simpa [lastD, List.foldl_cons] using ih d1

theorem pendingOuts_eq_dropLast (rest : List OaiDelta) :
    ∀ d0 : OaiDelta,
      pendingOuts (deltaToOllama d0) rest
        = ((d0 :: rest).dropLast).map
            (fun d => { deltaToOllama d with done := some false }) := by
  induction rest with
  | nil => intro d0; simp [pendingOuts]
  | cons d1 rest' ih =>
    intro d0
    show { deltaToOllama d0 with done := some false }
        :: pendingOuts (deltaToOllama d1) rest'
      = ((d0 :: d1 :: rest').dropLast).map
          (fun d => { deltaToOllama d with done := some false })
    rw [ih d1]
    rfl

theorem countDeltas_cons (d0 : OaiDelta) (l : List OaiDelta) :
    countDeltas (d0 :: l)
      = (if countable (deltaToOllama d0) then 1 else 0) + countDeltas l := by
  by_cases hc : countable (deltaToOllama d0)
  · have hcd : ¬(d0.content.getD "" = "") := by
      simpa [countable, deltaToOllama] using hc
    simp only [countDeltas, List.filter_cons, hc, if_pos]
    simp [hcd]
    omega
  · have hcd : (d0.content.getD "" = "") := by
      simpa [countable, deltaToOllama] using hc
    simp only [countDeltas, List.filter_cons, hc]
    simp [hcd]

theorem countPending_total (rest : List OaiDelta) :
    ∀ d0 : OaiDelta,
      countPending (deltaToOllama d0) rest
          + (if countable (deltaToOllama (lastD d0 rest)) then 1 else 0)
        = countDeltas (d0 :: rest) := by
  induction rest with
  | nil =>
    intro d0
    rw [countDeltas_cons]
    simp [countPending, lastD, countDeltas]
  | cons d1 rest' ih =>
    intro d0
    have h1 := ih d1
    have h3 : countPending (deltaToOllama d0) (d1 :: rest')
        = (if countable (deltaToOllama d0) then 1 else 0)
          + countPending (deltaToOllama d1) rest' := rfl
    have h4 : lastD d0 (d1 :: rest') = lastD d1 rest' := by
      simp [lastD, List.foldl_cons]
    rw [h3, h4, countDeltas_cons]
    omega

theorem getLast_eq_lastD (rest : List OaiDelta) :
    ∀ (d0 : OaiDelta) (h : d0 :: rest ≠ []),
      (d0 :: rest).getLast h = lastD d0 rest := by
  induction rest with
  | nil => intro d0 h; rfl
  | cons d1 rest' ih =>
    intro d0 h
    rw [List.getLast_cons (by simp)]
    simpa [lastD, List.foldl_cons] using ih d1 (by simp)

theorem finalizeFields_eq (clock : Nat → Nat) (s : BridgeState) (c : OChunk)
    (endIdx : Nat) :
    finalizeFields clock s c endIdx
      = finalChunk c.content s.evalCount (clock endIdx - clock 0)
          (eFrom clock s) := by
  unfold finalizeFields finalChunk eFrom
  cases hf : s.firstTokIdx <;> cases hl : s.lastTokIdx <;> simp
  all_goals decide

theorem eFrom_le_total (clock : Nat → Nat) (hm : Monotone clock)
    (s : BridgeState) (hts : timingOk s) :
    eFrom clock s ≤ clock s.k - clock 0 := by
  obtain ⟨hk, hrec⟩ := hts
  rcases hrec with ⟨hf, hl⟩ | ⟨f, l, hf, hl, hfl, hlk⟩
  · simp [eFrom, hf, hl]
  · simp only [eFrom, hf, hl]
    have h1 : clock l ≤ clock s.k := hm (by omega)
    have h2 : clock 0 ≤ clock f := hm (Nat.zero_le f)
    omega

theorem bridgeFinish_pair (isChat : Bool) (clock : Nat → Nat)
    (sr : BridgeState × List OChunk) :
    bridgeFinish isChat clock sr = sr.2 ++ finishTail isChat clock sr.1 := by
  obtain ⟨s, outs⟩ := sr
  exact bridgeFinish_eq isChat clock s outs

/-- The state transition of the `finish_reason == "stop"` branch after the
new translation was buffered. -/
def stopAdv (s2 : BridgeState) : BridgeState :=
  { s2 with prev := none, sawStop := true, k := s2.k + 1 }

/-- Processing the final delta and flushing: yields the buffered chunk with
`done: false` (when one exists), then exactly one finalized chunk whose
timing durations satisfy `eval_duration ≤ total_duration`. -/
theorem bridgeLastStep (clock : Nat → Nat) (hm : Monotone clock)
    (s : BridgeState) (dl : OaiDelta)
    (hss : s.sawStop = false) (hts : timingOk s)
    (hstop : dl.finish = none ∨ dl.finish = some "stop") :
    ∃ t e : Nat, e ≤ t ∧
      ∀ isChat : Bool,
        (bridgeRun clock s [.delta dl]).2
            ++ finishTail isChat clock (bridgeRun clock s [.delta dl]).1
          = (match s.prev with
             | some p => [{ p with done := some false }]
             | none => []) ++
            [finalChunk (finalContent isChat dl)
              (s.evalCount + (match s.prev with
                              | some p => if countable p then 1 else 0
                              | none => 0)) t e] := by
  cases hp : s.prev with
  | none =>
    have hyield : bridgeYieldPrev s = (s, []) := by
      simp [bridgeYieldPrev, hp]
    rcases hstop with hfin | hfin
    · -- end of stream: the translation is buffered, then flushed
      have hrun : bridgeRun clock s [.delta dl]
          = (advPlain s dl, []) := by
        simp [bridgeRun, bridgeStepDelta, hyield, hfin, advPlain]
      refine ⟨clock (advPlain s dl).k - clock 0, eFrom clock (advPlain s dl),
        eFrom_le_total clock hm _ (timingOk_advPlain s dl hts),
        fun isChat => ?_⟩
      have hfc : (flushChunk isChat (deltaToOllama dl)).content
          = finalContent isChat dl := by
        by_cases hdc : dl.content.getD "" = "" <;>
          cases isChat <;>
            simp [flushChunk, deltaToOllama, finalContent, hfin, hdc]
      rw [hrun]
      simp only [finishTail, advPlain, hss]
      rw [finalizeFields_eq]
      simp only [List.nil_append]
      rw [hfc]
      rfl
    · -- finish_reason == "stop": finalized immediately
      have hrun : bridgeRun clock s [.delta dl]
          = (stopAdv (advPlain s dl),
             [finalizeFields clock (advPlain s dl) (deltaToOllama dl)
               (advPlain s dl).k]) := by
        simp [bridgeRun, bridgeStepDelta, hyield, hfin, advPlain, stopAdv]
      refine ⟨clock (advPlain s dl).k - clock 0, eFrom clock (advPlain s dl),
        eFrom_le_total clock hm _ (timingOk_advPlain s dl hts),
        fun isChat => ?_⟩
      rw [hrun]
      simp only [finishTail]
      rw [finalizeFields_eq]
      simp only [List.append_nil, List.nil_append]
      have hfc : (deltaToOllama dl).content = finalContent isChat dl := by
        simp [deltaToOllama, finalContent, hfin]
      rw [hfc]
      rfl
  | some p =>
    by_cases hc : countable p
    · have hyield : bridgeYieldPrev s
          = ({ s with
               evalCount := s.evalCount + 1,
               firstTokIdx := some (s.firstTokIdx.getD s.k),
               lastTokIdx := some s.k,
               k := s.k + 1 },
             [{ p with done := some false }]) := by
        simp [bridgeYieldPrev, hp, countable_setDoneFalse, hc]
      rcases hstop with hfin | hfin
      · have hrun : bridgeRun clock s [.delta dl]
            = (advCounted s dl, [{ p with done := some false }]) := by
          simp only [bridgeRun, bridgeStepDelta, hyield, hfin]
          simp [advCounted]
        refine ⟨clock (advCounted s dl).k - clock 0,
          eFrom clock (advCounted s dl),
          eFrom_le_total clock hm _ (timingOk_advCounted s dl hts),
          fun isChat => ?_⟩
        have hfc : (flushChunk isChat (deltaToOllama dl)).content
            = finalContent isChat dl := by
          by_cases hdc : dl.content.getD "" = "" <;>
            cases isChat <;>
              simp [flushChunk, deltaToOllama, finalContent, hfin, hdc]
        rw [hrun]
        simp only [finishTail, advCounted, hss]
        rw [finalizeFields_eq]
        rw [hfc]
        simp [hc, advCounted]
      · have hrun : bridgeRun clock s [.delta dl]
            = (stopAdv (advCounted s dl),
               [{ p with done := some false },
                finalizeFields clock (advCounted s dl) (deltaToOllama dl)
                  (advCounted s dl).k]) := by
          simp only [bridgeRun, bridgeStepDelta, hyield, hfin]
          simp [advCounted, stopAdv]
        refine ⟨clock (advCounted s dl).k - clock 0,
          eFrom clock (advCounted s dl),
          eFrom_le_total clock hm _ (timingOk_advCounted s dl hts),
          fun isChat => ?_⟩
        rw [hrun]
        simp only [finishTail]
        rw [finalizeFields_eq]
        have hfc : (deltaToOllama dl).content = finalContent isChat dl := by
          simp [deltaToOllama, finalContent, hfin]
        rw [hfc]
        simp [hc, advCounted, stopAdv]
    · have hyield : bridgeYieldPrev s
          = (s, [{ p with done := some false }]) := by
        simp [bridgeYieldPrev, hp, countable_setDoneFalse, hc]
      rcases hstop with hfin | hfin
      · have hrun : bridgeRun clock s [.delta dl]
            = (advPlain s dl, [{ p with done := some false }]) := by
          simp [bridgeRun, bridgeStepDelta, hyield, hfin, advPlain]
        refine ⟨clock (advPlain s dl).k - clock 0, eFrom clock (advPlain s dl),
          eFrom_le_total clock hm _ (timingOk_advPlain s dl hts),
          fun isChat => ?_⟩
        have hfc : (flushChunk isChat (deltaToOllama dl)).content
            = finalContent isChat dl := by
          by_cases hdc : dl.content.getD "" = "" <;>
            cases isChat <;>
              simp [flushChunk, deltaToOllama, finalContent, hfin, hdc]
        rw [hrun]
        simp only [finishTail, advPlain, hss]
        rw [finalizeFields_eq]
        rw [hfc]
        simp [hc, advPlain]
      · have hrun : bridgeRun clock s [.delta dl]
            = (stopAdv (advPlain s dl),
               [{ p with done := some false },
                finalizeFields clock (advPlain s dl) (deltaToOllama dl)
                  (advPlain s dl).k]) := by
          simp [bridgeRun, bridgeStepDelta, hyield, hfin, advPlain, stopAdv]
        refine ⟨clock (advPlain s dl).k - clock 0, eFrom clock (advPlain s dl),
          eFrom_le_total clock hm _ (timingOk_advPlain s dl hts),
          fun isChat => ?_⟩
        rw [hrun]
        simp only [finishTail]
        rw [finalizeFields_eq]
        have hfc : (deltaToOllama dl).content = finalContent isChat dl := by
          simp [deltaToOllama, finalContent, hfin]
        rw [hfc]
        simp [hc, advPlain, stopAdv]

/-- C2 counterexample: on the upstream stream `content "He"`, `content "llo"`
ending without a `finish_reason` (`eval_count` is claimed to be the number of
non-empty content chunks *seen*, here 2), the bridge emits the final chunk
with `eval_count` "1": only chunks already yielded with `done: false` are
counted, never the buffered final one. -/
theorem claim_C2_counterexample :
    ((chatStream (fun i => i)
        [.delta ⟨some "He", none⟩, .delta ⟨some "llo", none⟩]).map
      (fun c => (c.done, c.eval_count)))
      = [(some false, none), (some true, some "1")] ∧
    countDeltas [⟨some "He", none⟩, ⟨some "llo", none⟩] = 2 ∧
    some "1" ≠ some (toString (2 : Nat)) := by
  refine ⟨?_, ?_, ?_⟩ <;> decide

/-- C2 (amended): for every OpenAI SSE delta stream, one delta per chunk,
with `finish_reason` at most on the last delta: every translated chunk is
held one step and emitted with `done: false` only when the next delta
arrives; when the last delta carries `finish_reason == "stop"` or the stream
ends, the (final) chunk is emitted with `done: true`, `done_reason "stop"`,
`load_duration "0"`, `prompt_eval_count "0"`, `prompt_eval_duration "0"`,
`eval_count` equal to the number of non-empty content chunks *yielded with
done: false* (not all chunks seen), and numeric
`eval_duration ≤ total_duration`; on the generate path an empty `response`
is removed from the flushed final chunk. In particular the stream
He / llo / finish stop yields exactly three objects, two `done: false` with
contents "He" and "llo" and one `done: true` with `eval_count` "2". -/
theorem claim_C2 (clock : Nat → Nat) (hm : Monotone clock)
    (ds : List OaiDelta) (hne : ds ≠ [])
    (hmid : ∀ d ∈ ds.dropLast, d.finish = none)
    (hlast : (ds.getLast hne).finish = none
             ∨ (ds.getLast hne).finish = some "stop") :
    (∃ t e : Nat, e ≤ t ∧
      chatStream clock (ds.map .delta)
        = ds.dropLast.map (fun d => { deltaToOllama d with done := some false })
          ++ [finalChunk (finalContent true (ds.getLast hne))
                (countDeltas ds.dropLast) t e] ∧
      generateStream clock (ds.map .delta)
        = ds.dropLast.map (fun d => { deltaToOllama d with done := some false })
          ++ [finalChunk (finalContent false (ds.getLast hne))
                (countDeltas ds.dropLast) t e]) ∧
    chatStream (fun i => i)
        [.delta ⟨some "He", none⟩, .delta ⟨some "llo", none⟩,
         .delta ⟨some "", some "stop"⟩]
      = [{ content := some "He", done := some false },
         { content := some "llo", done := some false },
         finalChunk (some "") 2 3 1] := by
  refine ⟨?_, by decide⟩
  obtain ⟨init, dl, hsplit0⟩ : ∃ L b, ds = L ++ [b] := by
    rcases List.eq_nil_or_concat ds with h | ⟨L, b, h⟩
    · exact absurd h hne
    · exact ⟨L, b, by simpa [List.concat_eq_append] using h⟩
  subst hsplit0
  have hgl : (init ++ [dl]).getLast hne = dl := by
    rw [List.getLast_append]
    simp
  have hdrop : (init ++ [dl]).dropLast = init := by
    simp
  rw [hgl] at hlast
  rw [hgl, hdrop]
  rw [hdrop] at hmid
  unfold chatStream generateStream
  rw [List.map_append]
  cases init with
  | nil =>
    obtain ⟨t, e, hte, hall⟩ :=
      bridgeLastStep clock hm initBridge dl rfl ⟨le_refl 1, Or.inl ⟨rfl, rfl⟩⟩
        hlast
    refine ⟨t, e, hte, ?_, ?_⟩
    · have h := hall true
      rw [bridgeFinish_pair]
      simpa [initBridge, countDeltas] using h
    · have h := hall false
      rw [bridgeFinish_pair]
      simpa [initBridge, countDeltas] using h
  | cons d0 mid =>
    have hd0 : d0.finish = none := hmid d0 (by simp)
    have hmm : ∀ d ∈ mid, d.finish = none := fun d hd => hmid d (by simp [hd])
    -- first delta: nothing yielded, translation buffered
    have hstep0 : bridgeStepDelta clock initBridge d0
        = (advPlain initBridge d0, []) := by
      simp [bridgeStepDelta, bridgeYieldPrev, initBridge, hd0, advPlain]
    have hts0 : timingOk (advPlain initBridge d0) :=
      ⟨le_refl 1, Or.inl ⟨rfl, rfl⟩⟩
    obtain ⟨s2, hrunMid, hprev2, hss2, hev2, hts2⟩ :=
      bridgeRun_pending clock mid hmm (advPlain initBridge d0)
        (deltaToOllama d0) rfl rfl hts0
    rw [foldl_deltaToOllama] at hprev2
    obtain ⟨t, e, hte, hall⟩ := bridgeLastStep clock hm s2 dl hss2 hts2 hlast
    have hout : ∀ isChat : Bool,
        bridgeFinish isChat clock
            (bridgeRun clock initBridge
              ((OaiBlock.delta d0 :: mid.map .delta) ++ [.delta dl]))
          = (d0 :: mid).map
              (fun d => { deltaToOllama d with done := some false })
            ++ [finalChunk (finalContent isChat dl) (countDeltas (d0 :: mid))
                  t e] := by
      intro isChat
      have hco : bridgeRun clock initBridge
          ((OaiBlock.delta d0 :: mid.map .delta) ++ [.delta dl])
          = bridgeRun clock initBridge
              (OaiBlock.delta d0 :: (mid.map .delta ++ [.delta dl])) := by
        simp
      rw [hco]
      show bridgeFinish isChat clock
          (let r := bridgeStepDelta clock initBridge d0
           let r2 := bridgeRun clock r.1 (mid.map .delta ++ [.delta dl])
           (r2.1, r.2 ++ r2.2)) = _
      rw [hstep0]
      simp only [List.nil_append]
      rw [bridgeRun_append, hrunMid]
      rw [bridgeFinish_pair]
      have h := hall isChat
      rw [hprev2] at h
      simp only at h
      have hmapinit : (d0 :: mid).map
            (fun d => { deltaToOllama d with done := some false })
          = pendingOuts (deltaToOllama d0) mid
            ++ [{ deltaToOllama (lastD d0 mid) with done := some false }] := by
        rw [pendingOuts_eq_dropLast]
        have hsplit : (d0 :: mid) = (d0 :: mid).dropLast
            ++ [(d0 :: mid).getLast (by simp)] :=
          (List.dropLast_append_getLast (by simp)).symm
        conv =>
          lhs
          rw [hsplit]
        rw [List.map_append, getLast_eq_lastD]
        simp
      have hcnt : s2.evalCount
            + (if countable (deltaToOllama (lastD d0 mid)) then 1 else 0)
          = countDeltas (d0 :: mid) := by
        rw [hev2]
        have h0 : (advPlain initBridge d0).evalCount = 0 := rfl
        rw [h0]
        simpa using countPending_total mid d0
      rw [hmapinit]
      simp only [List.append_assoc, List.singleton_append]
      congr 1
      rw [h, hcnt]
      simp
    exact ⟨t, e, hte, hout true, hout false⟩

/-- The example delta stream of spec §8 scenario 5. -/
def exDeltas : List OaiDelta :=
  [⟨some "He", none⟩, ⟨some "llo", none⟩, ⟨some "", some "stop"⟩]

theorem claim_C2_witness :
    Monotone (fun i : Nat => i) ∧
    exDeltas ≠ [] ∧
    (∀ d ∈ exDeltas.dropLast, d.finish = none) ∧
    ((∃ t e : Nat, e ≤ t ∧
      chatStream (fun i => i) (exDeltas.map .delta)
        = exDeltas.dropLast.map
            (fun d => { deltaToOllama d with done := some false })
          ++ [finalChunk (some "") 2 t e] ∧
      generateStream (fun i => i) (exDeltas.map .delta)
        = exDeltas.dropLast.map
            (fun d => { deltaToOllama d with done := some false })
          ++ [finalChunk (some "") 2 t e]) ∧
     chatStream (fun i => i)
        [.delta ⟨some "He", none⟩, .delta ⟨some "llo", none⟩,
         .delta ⟨some "", some "stop"⟩]
      = [{ content := some "He", done := some false },
         { content := some "llo", done := some false },
         finalChunk (some "") 2 3 1]) :=
  ⟨fun _ _ h => h, by decide, by decide,
   claim_C2 (fun i => i) (fun _ _ h => h) exDeltas (by decide) (by decide)
     (by decide)⟩

/-! ## Section 8: log parser
(log_parser.LlamaLogParser.parse_log_line, lines 41-172, and
parse_multiple_lines, lines 174-246). Python floats are modelled as
rationals; `float()` of a multi-dot capture (which raises ValueError in the
source) is modelled as 0 uniformly on both code paths. -/

/-- Tokens of the fixed timing/status regexes: literal text, `\s*`, `(\d+)`
and `([\d.]+)`. -/
inductive Tok where
  | lit (s : List Char)
  | ws
  | digits
  | numdots
deriving Repr

/-- Python `\s` on ASCII input. -/
def isPySpace (c : Char) : Bool :=
  c = ' ' || c = '\t' || c = '\n' || c = '\x0b' || c = '\x0c' || c = '\r'

/-- Match a token sequence at the start of `s`: captured runs and consumed
length. Greedy maximal munch is exact for these patterns because every
variable-length token is followed by a character class disjoint from it. -/
def matchToks : List Tok → List Char → Option (List (List Char) × Nat)
  | [], _ => some ([], 0)
  | .lit l :: ts, s =>
    if l.isPrefixOf s then
      (matchToks ts (s.drop l.length)).map (fun r => (r.1, l.length + r.2))
    else none
  | .ws :: ts, s =>
    let n := (s.takeWhile isPySpace).length
    (matchToks ts (s.drop n)).map (fun r => (r.1, n + r.2))
  | .digits :: ts, s =>
    let ds := s.takeWhile Char.isDigit
    if ds.isEmpty then none
    else (matchToks ts (s.drop ds.length)).map
      (fun r => (ds :: r.1, ds.length + r.2))
  | .numdots :: ts, s =>
    let ds := s.takeWhile (fun c => c.isDigit || c = '.')
    if ds.isEmpty then none
    else (matchToks ts (s.drop ds.length)).map
      (fun r => (ds :: r.1, ds.length + r.2))

/-- A regex match: span and captures. -/
structure RMatch where
  start : Nat
  stop : Nat
  caps : List (List Char)
deriving DecidableEq, Repr

/-- `re.finditer`: leftmost matches, scanning resumes at each match end
(`skip` counts the positions still covered by the previous match). -/
def findIterAux (p : List Tok) : List Char → Nat → Nat → List RMatch
  | [], _, _ => []
  | c :: rest, off, skip =>
    if skip > 0 then findIterAux p rest (off + 1) (skip - 1)
    else
      match matchToks p (c :: rest) with
      | some (caps, len) =>
        if len = 0 then findIterAux p rest (off + 1) 0
        else ⟨off, off + len, caps⟩ :: findIterAux p rest (off + 1) (len - 1)
      | none => findIterAux p rest (off + 1) 0

def findIter (p : List Tok) (s : List Char) : List RMatch :=
  findIterAux p s 0 0

/-- `re.search`: captures of the leftmost match, if any. -/
def reSearch (p : List Tok) : List Char → Option (List (List Char))
  | [] => none
  | c :: rest =>
    match matchToks p (c :: rest) with
    | some (caps, _) => some caps
    | none => reSearch p rest

/-- `str.find(needle)`: position of the first occurrence. -/
def strFindAux (needle : List Char) : List Char → Nat → Option Nat
  | [], off => if needle.isEmpty then some off else none
  | c :: rest, off =>
    if needle.isPrefixOf (c :: rest) then some off
    else strFindAux needle rest (off + 1)

def strFind (needle hay : List Char) : Option Nat :=
  strFindAux needle hay 0

/-- `r"new prompt, n_ctx_slot = \d+, n_keep = \d+, n_prompt_tokens = (\d+)"`
(only the last run is a capture group in the source; here every run is
captured, so `group(1)` is capture index 2). -/
def patNewPrompt : List Tok :=
  [.lit "new prompt, n_ctx_slot = ".data, .digits,
   .lit ", n_keep = ".data, .digits,
   .lit ", n_prompt_tokens = ".data, .digits]

/-- `r"prompt processing progress, n_past = (\d+), n_tokens = (\d+), progress = ([\d.]+)"` -/
def patProgress : List Tok :=
  [.lit "prompt processing progress, n_past = ".data, .digits,
   .lit ", n_tokens = ".data, .digits,
   .lit ", progress = ".data, .numdots]

/-- `r"prompt done, n_past = (\d+), n_tokens = (\d+)"` -/
def patPromptDone : List Tok :=
  [.lit "prompt done, n_past = ".data, .digits,
   .lit ", n_tokens = ".data, .digits]

/-- `r"prompt eval time\s*=\s*([\d.]+)\s*ms\s*/\s*(\d+)\s*tokens"` -/
def patPromptEval : List Tok :=
  [.lit "prompt eval time".data, .ws, .lit "=".data, .ws, .numdots, .ws,
   .lit "ms".data, .ws, .lit "/".data, .ws, .digits, .ws, .lit "tokens".data]

/-- `r"eval time\s*=\s*([\d.]+)\s*ms\s*/\s*(\d+)\s*tokens"` -/
def patEval : List Tok :=
  [.lit "eval time".data, .ws, .lit "=".data, .ws, .numdots, .ws,
   .lit "ms".data, .ws, .lit "/".data, .ws, .digits, .ws, .lit "tokens".data]

/-- Split a character run on `.` (for `float()` of a `[\d.]+` capture). -/
def splitOnDot : List Char → List (List Char)
  | [] => [[]]
  | c :: rest =>
    if c = '.' then [] :: splitOnDot rest
    else
      match splitOnDot rest with
      | g :: gs => (c :: g) :: gs
      | [] => [[c]]

/-- Python `float()` on a `[\d.]+` capture, as a rational; multi-dot inputs
(ValueError in the source) become 0. -/
def pyFloat (ds : List Char) : ℚ :=
  match splitOnDot ds with
  | [intPart] => (digitsToNat intPart : ℚ)
  | [intPart, fracPart] =>
    (digitsToNat intPart : ℚ) + (digitsToNat fracPart : ℚ) / (10 ^ fracPart.length : ℚ)
  | _ => 0

/-- `(tokens / time) * 1000 if time > 0 else 0` -/
def computeSpeed (tokens : Nat) (time : ℚ) : ℚ :=
  if time > 0 then (tokens : ℚ) / time * 1000 else 0

/-- The status tag of `ModelStatus`. -/
inductive ModelStatus where
  | idle
  | starting
  | processingPrompt
  | generating
  | completed
deriving DecidableEq, Repr

/-- `ModelStatusInfo` -/
structure ModelStatusInfo where
  status : ModelStatus
  progress : Option ℚ := none
  processing_speed : Option ℚ := none
  generation_speed : Option ℚ := none
  prompt_tokens : Option Nat := none
  generated_tokens : Option Nat := none
  total_tokens : Option Nat := none
deriving DecidableEq, Repr

/-- `self.pending_timing_info` (the four facts collected across lines). -/
structure PendingTiming where
  prompt_eval_time : Option ℚ := none
  p_tokens : Option Nat := none
  eval_time : Option ℚ := none
  g_tokens : Option Nat := none
deriving DecidableEq, Repr

def emptyPending : PendingTiming := {}

def idleInfo : ModelStatusInfo := { status := .idle }

/-- `parse_log_line` as a pure transition on (pending timing, current
status). The source's early returns become the nested matches, in source
order. -/
def parse_log_line (line : String) (pending : PendingTiming)
    (current : ModelStatusInfo) : PendingTiming × ModelStatusInfo :=
  let cs := line.data
  match (if strContains "new prompt" line then reSearch patNewPrompt cs
         else none) with
  | some caps =>
    (emptyPending,
     { status := .starting,
       prompt_tokens := some (digitsToNat (caps.getD 2 [])) })
  | none =>
  match (if strContains "prompt processing progress" line
         then reSearch patProgress cs else none) with
  | some caps =>
    (pending,
     { status := .processingPrompt,
       progress := some (pyFloat (caps.getD 2 []) * 100),
       prompt_tokens := some (digitsToNat (caps.getD 1 [])) })
  | none =>
  match (if strContains "prompt done" line then reSearch patPromptDone cs
         else none) with
  | some caps =>
    (pending,
     { status := .generating,
       prompt_tokens := some (digitsToNat (caps.getD 1 [])) })
  | none =>
  let pending1 :=
    if strContains "prompt eval time" line then
      match reSearch patPromptEval cs with
      | some caps =>
        { pending with
          prompt_eval_time := some (pyFloat (caps.getD 0 [])),
          p_tokens := some (digitsToNat (caps.getD 1 [])) }
      | none => pending
    else pending
  let pending2 :=
    if strContains "eval time" line && !(strContains "prompt eval time" line)
    then
      match reSearch patEval cs with
      | some caps =>
        { pending1 with
          eval_time := some (pyFloat (caps.getD 0 [])),
          g_tokens := some (digitsToNat (caps.getD 1 [])) }
      | none => pending1
    else pending1
  match pending2 with
  | ⟨some pet, some pt, some et, some gt⟩ =>
    (emptyPending,
     { status := .completed,
       processing_speed := some (computeSpeed pt pet),
       generation_speed := some (computeSpeed gt et),
       prompt_tokens := some pt,
       generated_tokens := some gt,
       total_tokens := some (pt + gt) })
  | _ =>
  if strContains "all slots are idle" line then
    (emptyPending, { status := .idle })
  else if strContains "processing task" line && decide (current.status = .idle)
  then (emptyPending, { status := .starting })
  else if decide (current.status = .completed)
      && (strContains "processing task" line || strContains "new prompt" line)
  then
    match (if strContains "new prompt" line then reSearch patNewPrompt cs
           else none) with
    | some caps =>
      (emptyPending,
       { status := .starting,
         prompt_tokens := some (digitsToNat (caps.getD 2 [])) })
    | none => (emptyPending, { status := .starting })
  else (pending2, current)

/-- The fold of `parse_log_line` from Idle with fresh timing state (both the
claim's reference semantics and the fallback loop of
`parse_multiple_lines`). -/
def foldParseLogLine (lines : List String) : ModelStatusInfo :=
  (lines.foldl (fun acc l => parse_log_line l acc.1 acc.2)
    (emptyPending, idleInfo)).2

/-- `"\n".join(lines)` -/
def joinLines (lines : List String) : List Char :=
  (String.intercalate "\n" lines).data

/-- `full_log.rfind("\n", 0, pos) + 1` -/
def lineStartAt (full : List Char) (pos : Nat) : Nat :=
  match ((List.range pos).filter (fun i => full.getD i 'a' == '\n')).getLast?
  with
  | some i => i + 1
  | none => 0

/-- `full_log.find("\n", pos)` with `-1` mapped to the length. -/
def lineEndAt (full : List Char) (pos : Nat) : Nat :=
  match ((List.range full.length).filter
    (fun i => decide (pos ≤ i) && (full.getD i 'a' == '\n'))).head? with
  | some i => i
  | none => full.length

/-- The joined-log line containing position `pos`. -/
def lineAt (full : List Char) (pos : Nat) : List Char :=
  (full.drop (lineStartAt full pos)).take (lineEndAt full pos - lineStartAt full pos)

/-- `prompt_eval_matches` over the joined log. -/
def promptEvalMatches (lines : List String) : List RMatch :=
  findIter patPromptEval (joinLines lines)

/-- `filtered_eval_matches`: eval-time matches whose containing line does not
start with `prompt eval time`. -/
def filteredEvalMatches (lines : List String) : List RMatch :=
  (findIter patEval (joinLines lines)).filter
    (fun m => !("prompt eval time".data.isPrefixOf (lineAt (joinLines lines) m.start)))

/-- `has_newer_tasks`: a task-initiating line whose first occurrence in the
joined log lies after the last timing position. -/
def hasNewerTasks (lines : List String) (lastPos : Nat) : Bool :=
  lines.any (fun l =>
    (strContains "processing task" l || strContains "new prompt" l) &&
    (match strFind l.data (joinLines lines) with
     | some pos => decide (pos > lastPos)
     | none => false))

/-- `parse_multiple_lines` (log_parser.py lines 174-246). -/
def parse_multiple_lines (lines : List String) : ModelStatusInfo :=
  match (promptEvalMatches lines).getLast?, (filteredEvalMatches lines).getLast?
  with
  | some lpe, some lev =>
    let lastPos := max lpe.stop lev.stop
    if hasNewerTasks lines lastPos then foldParseLogLine lines
    else
      let pet := pyFloat (lpe.caps.getD 0 [])
      let pt := digitsToNat (lpe.caps.getD 1 [])
      let et := pyFloat (lev.caps.getD 0 [])
      let gt := digitsToNat (lev.caps.getD 1 [])
      { status := .completed,
        processing_speed := some (computeSpeed pt pet),
        generation_speed := some (computeSpeed gt et),
        prompt_tokens := some pt,
        generated_tokens := some gt,
        total_tokens := some (pt + gt) }
  | _, _ => foldParseLogLine lines

/-- A snapshot with one complete timing block whose trailing `processing
task` line repeats a line from before the block. -/
def taskLines : List String :=
  ["processing task",
   "prompt eval time = 10 ms / 5 tokens",
   "eval time = 20 ms / 10 tokens",
   "processing task"]

/-- C8 counterexample: on `taskLines` the final `processing task` line comes
after the last complete timing block, yet `parse_multiple_lines` returns
Completed — `str.find` locates only the first occurrence of the line's text,
which is before the block — while the line-by-line fold returns Starting:
the two disagree, refuting both halves of the claim. -/
theorem claim_C8_counterexample :
    (parse_multiple_lines taskLines).status = .completed ∧
    (foldParseLogLine taskLines).status = .starting ∧
    parse_multiple_lines taskLines ≠ foldParseLogLine taskLines ∧
    taskLines.getLast? = some "processing task" := by
  refine ⟨?_, ?_, ?_, ?_⟩ <;> decide

/-- C8 (amended): `parse_multiple_lines` returns the same final status as
folding `parse_log_line` from Idle whenever the joined log contains no
complete timing block (no prompt-eval-time match, or no eval-time match on a
line not starting with "prompt eval time"), and also whenever some
task-initiating line's first occurrence lies after the last timing match;
otherwise it returns Completed built from the last prompt-eval and last
filtered eval matches — which can disagree with the fold, and a
task-initiating line after the last timing block fails to prevent Completed
when its text also occurs earlier in the log. -/
theorem claim_C8 (lines : List String) :
    ((promptEvalMatches lines = [] ∨ filteredEvalMatches lines = []) →
      parse_multiple_lines lines = foldParseLogLine lines) ∧
    (∀ lpe lev : RMatch,
      (promptEvalMatches lines).getLast? = some lpe →
      (filteredEvalMatches lines).getLast? = some lev →
      hasNewerTasks lines (max lpe.stop lev.stop) = true →
      parse_multiple_lines lines = foldParseLogLine lines) ∧
    (∀ lpe lev : RMatch,
      (promptEvalMatches lines).getLast? = some lpe →
      (filteredEvalMatches lines).getLast? = some lev →
      hasNewerTasks lines (max lpe.stop lev.stop) = false →
      parse_multiple_lines lines
        = { status := .completed,
            processing_speed := some (computeSpeed
              (digitsToNat (lpe.caps.getD 1 [])) (pyFloat (lpe.caps.getD 0 []))),
            generation_speed := some (computeSpeed
              (digitsToNat (lev.caps.getD 1 [])) (pyFloat (lev.caps.getD 0 []))),
            prompt_tokens := some (digitsToNat (lpe.caps.getD 1 [])),
            generated_tokens := some (digitsToNat (lev.caps.getD 1 [])),
            total_tokens := some (digitsToNat (lpe.caps.getD 1 [])
              + digitsToNat (lev.caps.getD 1 [])) }) := by
  refine ⟨fun h => ?_, fun lpe lev h1 h2 h3 => ?_, fun lpe lev h1 h2 h3 => ?_⟩
  · rcases h with h | h <;> simp [parse_multiple_lines, h]
  · simp [parse_multiple_lines, h1, h2, h3]
  · simp [parse_multiple_lines, h1, h2, h3]

/-- A snapshot with no timing lines at all. -/
def noTimingLines : List String :=
  ["new prompt, n_ctx_slot = 512, n_keep = 0, n_prompt_tokens = 5",
   "prompt done, n_past = 5, n_tokens = 5"]

theorem claim_C8_witness :
    promptEvalMatches noTimingLines = [] ∧
    parse_multiple_lines noTimingLines = foldParseLogLine noTimingLines :=
  ⟨by decide, (claim_C8 noTimingLines).1 (Or.inl (by decide))⟩

end LlamaRunner
